import Mathlib

/-!
Verification development for the `chatgpt-bot-service` repository
(`src/chatgpt-bot-service/main.go`).

The Go source file contains two concatenated variants of the same service:

* variant A (namespace `VA` below): the caching variant — Redis response
  cache, a process-wide synonym index built at startup
  (`loadCoursesAndSynonyms`, `addIfUnique`, `extractAndAddKeywords`),
  the `analyzeIntent` classifier, and a `chatHandler` that routes price
  intents to an unsorted paginated query and everything else to a
  synonym scan;
* variant B (namespace `VB` below): the AI-fallback variant —
  `chatGPTQuery`, `getCoursesByCategory`, `getCoursesOrderedByPrice`,
  `getCoursesOrderedByDate`, `handleCourseRequest` and
  `containsKeywords`.

External collaborators (MongoDB, Redis, the OpenAI endpoint) are modelled
as pure data: the catalog is a list of `Course` records in natural store
order, the cache is an explicit key/value state with expiry timestamps,
and the remote AI call is a parameter describing the transport outcome.
Go's `strings.ToLower` is modelled on the ASCII range (the keyword
vocabularies are already lower-case); MongoDB's `$regex`/`$options: "i"`
matching is modelled as case-insensitive substring containment, and its
sorted queries as a stable sort on the named document field, with a
missing field comparing equal everywhere.
-/

/-- Embedding of Go's `strings.ToLower` on a character, restricted to the
ASCII range: byte values 65–90 are shifted to 97–122, everything else is
untouched. -/
def goLower (c : Char) : Char :=
  if c.toNat ≥ 65 ∧ c.toNat ≤ 90 then Char.ofNat (c.toNat + 32) else c

/-- Embedding of Go's `strings.ToLower` on a string (ASCII case folding). -/
def lowerS (s : String) : String :=
  String.mk (s.data.map goLower)

/-- Embedding of Go's `strings.Contains needle`: `substrB needle hay` is
true iff `needle` occurs as a contiguous substring of `hay`. -/
def substrB (needle hay : String) : Bool :=
  hay.data.tails.any (fun t => needle.data.isPrefixOf t)

/-- Splitter behind `goFields`: collect the maximal whitespace-free runs
of a character list (`acc` holds the current run, reversed). -/
def fieldsAux : List Char → List Char → List (List Char)
  | [], acc => if acc = [] then [] else [acc.reverse]
  | c :: cs, acc =>
    if c.isWhitespace then
      if acc = [] then fieldsAux cs [] else acc.reverse :: fieldsAux cs []
    else fieldsAux cs (c :: acc)

/-- Embedding of Go's `strings.Fields`: the whitespace-separated words of
the string, empty fragments dropped. -/
def goFields (s : String) : List String :=
  (fieldsAux s.data []).map String.mk

/-- Embedding of Go's `strings.TrimSpace`: drop whitespace from both
ends. -/
def goTrim (s : String) : String :=
  String.mk (((s.data.dropWhile Char.isWhitespace).reverse.dropWhile
    Char.isWhitespace).reverse)

/-- A JSON value, the domain of payloads travelling through the Redis
cache, the OpenAI response body, and dynamically decoded Mongo documents
(Go's `map[string]interface{}` / `interface{}`). -/
inductive Json
  | null
  | bool (b : Bool)
  | num (n : Int)
  | str (s : String)
  | arr (xs : List Json)
  | obj (fields : List (String × Json))

/-- Field lookup in a JSON object (`result["key"]` on a decoded Go map);
`none` on non-objects and absent keys. -/
def jGet : Json → String → Option Json
  | Json.obj fields, k => List.lookup k fields
  | _, _ => none

/-- `doc["key"].(string)`: the value of `k` when it is present and is a
string, else `none` (the `none` case is where the Go type assertion
panics). -/
def jGetStr (j : Json) (k : String) : Option String :=
  match jGet j k with
  | some (Json.str s) => some s
  | _ => none

/-- A catalog record, with the schema of the spec's data model
(`category`, `title`, `description`, `price`, `createdAt`). -/
structure Course where
  category : String
  title : String
  description : String
  price : Int
  createdAt : Int
deriving DecidableEq, Repr

/-- What the `/chat` handler writes back: a JSON array of courses, a JSON
`response`-message object, or an `http.Error` with a status code. -/
inductive HttpResponse
  | jsonCourses (cs : List Course)
  | jsonMessage (msg : String)
  | httpError (msg : String) (status : Nat)
deriving DecidableEq, Repr

namespace VA

/-- The fixed keyword vocabulary of `extractAndAddKeywords`. -/
def keywords : List String :=
  ["curso", "desarrollo", "web", "programación", "móviles", "python",
   "javascript", "frontend", "backend"]

/-- `addIfUnique`: lower-case the synonym, keep the list unchanged if it
is already present, otherwise append it. The global `synonyms` slice is
passed explicitly. -/
def addIfUnique (synonyms : List String) (synonym : String) : List String :=
  let s := lowerS synonym
  if synonyms.contains s then synonyms else synonyms ++ [s]

/-- `extractAndAddKeywords`: for each whitespace-delimited word of the
lower-cased text, for each fixed keyword contained in that word, add the
word via `addIfUnique` (the nested Go loops kept as nested folds). -/
def extractAndAddKeywords (synonyms : List String) (text : String) : List String :=
  (goFields (lowerS text)).foldl
    (fun st word =>
      keywords.foldl
        (fun st2 keyword => if substrB keyword word then addIfUnique st2 word else st2)
        st)
    synonyms

/-- The five entries of the `intents` map in `analyzeIntent`, in source
order. Go iterates a map in an unspecified order, so functions below take
the iteration order as a parameter ranging over permutations of this
list. -/
def intentEntries : List (String × String) :=
  [("barato", "precio ascendente"),
   ("caro", "precio descendente"),
   ("nuevo", "fecha descendente"),
   ("reciente", "fecha descendente"),
   ("antiguo", "fecha ascendente")]

/-- `analyzeIntent`, with the map iteration order made explicit: return
the intent of the first entry whose keyword occurs in the lower-cased
question, else `"categoría"`. -/
def analyzeIntentWith (order : List (String × String)) (question : String) : String :=
  match order with
  | [] => "categoría"
  | (keyword, intent) :: rest =>
    if substrB keyword (lowerS question) then intent
    else analyzeIntentWith rest question

/-- `analyzeIntent` under the source-order iteration of the map. -/
def analyzeIntent (question : String) : String :=
  analyzeIntentWith intentEntries question

/-- The Mongo filters variant A's `chatHandler` issues: the empty filter,
or the `$or` of case-insensitive `$regex` containment of a term in
`category`, `title` and `description`. -/
inductive CatFilter
  | all
  | orContains (term : String)
deriving DecidableEq, Repr

/-- Whether a course document matches a filter; `$regex` with
`$options: "i"` is modelled as case-insensitive substring containment. -/
def matchesFilter (f : CatFilter) (c : Course) : Bool :=
  match f with
  | CatFilter.all => true
  | CatFilter.orContains term =>
    substrB (lowerS term) (lowerS c.category) ||
    substrB (lowerS term) (lowerS c.title) ||
    substrB (lowerS term) (lowerS c.description)

/-- `getCoursesPaginated`: filter the catalog, skip `(page-1)*limit`
records and take `limit`, in natural store order — no sort stage. -/
def getCoursesPaginated (catalog : List Course) (f : CatFilter) (page limit : Nat) :
    List Course :=
  ((catalog.filter (matchesFilter f)).drop ((page - 1) * limit)).take limit

/-- The synonym-scan of `chatHandler`'s default branch: the first synonym
(in index order) contained in the lower-cased question. -/
def firstSynonymMatch (synonyms : List String) (question : String) : Option String :=
  synonyms.find? (fun s => substrB s (lowerS question))

/-- Variant A's `chatHandler` on a cache miss, with the synonym index and
the catalog passed explicitly: empty question → 400; price intents → the
unsorted page-1/limit-10 query; every other intent (dates included) → the
synonym scan, whose result is encoded directly (`nil` slice encodes like
the empty list). -/
def chatHandler (order : List (String × String)) (synonyms : List String)
    (catalog : List Course) (question : String) : HttpResponse :=
  if question = "" then HttpResponse.httpError "Missing question parameter" 400
  else
    let intent := analyzeIntentWith order question
    if intent = "precio ascendente" then
      HttpResponse.jsonCourses (getCoursesPaginated catalog CatFilter.all 1 10)
    else if intent = "precio descendente" then
      HttpResponse.jsonCourses (getCoursesPaginated catalog CatFilter.all 1 10)
    else
      match firstSynonymMatch synonyms question with
      | some syn =>
        HttpResponse.jsonCourses
          (getCoursesPaginated catalog (CatFilter.orContains syn) 1 10)
      | none => HttpResponse.jsonCourses []

/-- The cache key of `chatHandler`:
`fmt.Sprintf("query:%s", strings.ToLower(question))` — lower-cased but
not trimmed. -/
def cacheKey (question : String) : String :=
  "query:" ++ lowerS question

/-- Modelled from the spec: the normalization §4.4 describes (trimmed and
lower-cased), for comparison with `cacheKey`. -/
def specNormalize (question : String) : String :=
  lowerS (goTrim question)

/-- Modelled from the spec: the cache key §4.4 describes — fixed
namespace prefix applied to the trimmed, lower-cased question. -/
def specCacheKey (question : String) : String :=
  "query:" ++ specNormalize question

/-- The 10-minute TTL of `cacheResponse`, in seconds. -/
def ttlSeconds : Nat := 600

/-- Modelled from the spec: the external cache store (Redis is an
excluded collaborator, "a generic get/set key-value service with
expiry"). Entries carry their absolute expiry instant; Go's
`json.Marshal` followed by `json.Unmarshal` into `interface{}` is the
identity on the `Json` domain, so payloads are stored structurally. -/
structure CacheState where
  entries : List (String × Json × Nat)
deriving Inhabited

/-- `redisClient.Set key value ttl` at instant `now`: insert the entry
with expiry `now + ttl`, replacing any prior entry for the key. -/
def cacheSet (st : CacheState) (key : String) (value : Json) (now ttl : Nat) :
    CacheState :=
  ⟨(key, value, now + ttl) :: st.entries.filter (fun e => e.1 != key)⟩

/-- `redisClient.Get key` at instant `now`: the stored payload when the
entry exists and has not expired, else a miss (`redis.Nil`). -/
def cacheGet (st : CacheState) (key : String) (now : Nat) : Option Json :=
  match st.entries.find? (fun e => e.1 == key) with
  | some (_, v, expiry) => if now < expiry then some v else none
  | none => none

/-- `cacheResponse`: marshal the payload and store it with a 10-minute
expiry. -/
def cacheResponse (st : CacheState) (key : String) (data : Json) (now : Nat) :
    CacheState :=
  cacheSet st key data now ttlSeconds

/-- `getCachedResponse`: a hit with the unmarshalled payload, or a miss
on error. -/
def getCachedResponse (st : CacheState) (key : String) (now : Nat) :
    Option Json :=
  cacheGet st key now

/-- One insertion into the synonym index, as performed by
`loadCoursesAndSynonyms` for a record's fields: the category goes through
`addIfUnique`, title and description through `extractAndAddKeywords`. -/
inductive IndexOp
  | addCategory (s : String)
  | addKeywords (text : String)

/-- Apply one insertion to the index. -/
def applyOp (st : List String) : IndexOp → List String
  | IndexOp.addCategory s => addIfUnique st s
  | IndexOp.addKeywords text => extractAndAddKeywords st text

/-- Apply a sequence of insertions, left to right. -/
def runOps (st : List String) (ops : List IndexOp) : List String :=
  ops.foldl applyOp st

/-- A record as it comes off the startup cursor: either `Decode` failed,
or it yielded a dynamic document. -/
inductive RawRecord
  | decodeError
  | decoded (doc : Json)

/-- How the startup index build ends: normally, or in a run-time panic
from an unchecked type assertion. -/
inductive LoadOutcome
  | ok (synonyms : List String)
  | panicked
deriving DecidableEq, Repr

/-- One iteration of the `loadCoursesAndSynonyms` cursor loop: a decode
error is skipped with a logged warning; on a decoded document the three
type assertions `course["category"].(string)` etc. must all succeed
(`none` = panic), and then the three insertions run. -/
def loadStep (st : List String) : RawRecord → Option (List String)
  | RawRecord.decodeError => some st
  | RawRecord.decoded doc =>
    match jGetStr doc "category", jGetStr doc "title", jGetStr doc "description" with
    | some category, some title, some description =>
      some (extractAndAddKeywords
              (extractAndAddKeywords (addIfUnique st category) title)
              description)
    | _, _, _ => none

/-- `loadCoursesAndSynonyms` over a list of raw records, starting from
index `st`. -/
def loadCoursesAndSynonyms (st : List String) : List RawRecord → LoadOutcome
  | [] => LoadOutcome.ok st
  | r :: rs =>
    match loadStep st r with
    | some st2 => loadCoursesAndSynonyms st2 rs
    | none => LoadOutcome.panicked

end VA

namespace VB

/-- `containsKeywords`: whether any keyword of the list occurs in the
lower-cased question. -/
def containsKeywords (question : String) (kws : List String) : Bool :=
  kws.any (fun k => substrB k (lowerS question))

/-- The hard-coded synonym list inside `getCoursesByCategory`. -/
def vbSynonyms : List String :=
  ["backend", "servidor", "API", "fullstack", "desarrollo"]

/-- The `$or` filter of `getCoursesByCategory`: the search term in
`category`/`title`/`description`, or any of the hard-coded synonyms in
those fields (case-insensitive `$regex` modelled as case-insensitive
substring containment). -/
def matchesCategoryFilter (term : String) (c : Course) : Bool :=
  (substrB (lowerS term) (lowerS c.category) ||
   substrB (lowerS term) (lowerS c.title) ||
   substrB (lowerS term) (lowerS c.description)) ||
  vbSynonyms.any (fun s =>
    substrB (lowerS s) (lowerS c.category) ||
    substrB (lowerS s) (lowerS c.title) ||
    substrB (lowerS s) (lowerS c.description))

/-- `getCoursesByCategory`: all catalog records matching the filter, in
natural store order (the query has no sort stage). -/
def getCoursesByCategory (catalog : List Course) (category : String) :
    List Course :=
  catalog.filter (matchesCategoryFilter category)

/-- A Mongo sort stage: the literal field name and the direction
(`1` ascending / `-1` descending). -/
structure SortQuery where
  field : String
  ascending : Bool
deriving DecidableEq, Repr

/-- Document field lookup for the sort stage, on the spec's Course
schema: only `"price"` and `"createdAt"` exist; any other name is a
missing field (`none`). -/
def fieldValue (c : Course) (field : String) : Option Int :=
  if field = "price" then some c.price
  else if field = "createdAt" then some c.createdAt
  else none

/-- Mongo comparison for the sort stage: a missing value sorts below
every present value. -/
def valLE (a b : Option Int) : Bool :=
  match a, b with
  | none, _ => true
  | some _, none => false
  | some x, some y => x ≤ y

/-- The comparison a sort stage induces on courses. -/
def sortLEb (q : SortQuery) (a b : Course) : Bool :=
  if q.ascending then valLE (fieldValue a q.field) (fieldValue b q.field)
  else valLE (fieldValue b q.field) (fieldValue a q.field)

/-- Run a sort stage over the catalog, modelled as a stable sort on the
named field. -/
def runSortQuery (catalog : List Course) (q : SortQuery) : List Course :=
  List.insertionSort (fun a b => sortLEb q a b = true) catalog

/-- The sort stage of `getCoursesOrderedByPrice`:
`bson.D{{"price", sortOrder}}`, ascending iff the raw question contains
`"barato"` (no lower-casing in this check). -/
def priceQuery (order : String) : SortQuery :=
  ⟨"price", substrB "barato" order⟩

/-- The sort stage of `getCoursesOrderedByDate`:
`bson.D{{"createdat", sortOrder}}` — note the all-lower-case field name —
descending iff the raw question contains `"nuevo"` or `"reciente"`. -/
def dateQuery (order : String) : SortQuery :=
  ⟨"createdat", !(substrB "nuevo" order || substrB "reciente" order)⟩

/-- `getCoursesOrderedByPrice`: the whole catalog through the price sort
stage — no pagination. -/
def getCoursesOrderedByPrice (catalog : List Course) (order : String) :
    List Course :=
  runSortQuery catalog (priceQuery order)

/-- `getCoursesOrderedByDate`: the whole catalog through the date sort
stage — no pagination. -/
def getCoursesOrderedByDate (catalog : List Course) (order : String) :
    List Course :=
  runSortQuery catalog (dateQuery order)

/-- `handleCourseRequest`, with the catalog passed explicitly. The branch
order is the source's: category keywords first, then price keywords, then
date keywords, then the generic message. -/
def handleCourseRequest (catalog : List Course) (question : String) :
    HttpResponse :=
  if containsKeywords question ["programación", "frontend", "backend"] then
    let courses := getCoursesByCategory catalog question
    if courses = [] then
      HttpResponse.jsonMessage "No se encontraron cursos en esta categoría."
    else HttpResponse.jsonCourses courses
  else if containsKeywords question ["barato", "caro", "precio"] then
    HttpResponse.jsonCourses (getCoursesOrderedByPrice catalog question)
  else if containsKeywords question ["nuevo", "reciente", "antiguo"] then
    HttpResponse.jsonCourses (getCoursesOrderedByDate catalog question)
  else
    HttpResponse.jsonMessage "No se encontraron cursos relacionados con tu búsqueda."

/-- The transport-level outcome of the outbound OpenAI call:
`client.Do` fails, or a response body arrives (`none` = the body is not
valid JSON, so `json.Unmarshal` leaves the result map empty). -/
inductive Transport
  | transportError (msg : String)
  | response (body : Option Json)

/-- How `chatGPTQuery` can end: the first completion's text, a returned
error, or a run-time panic from an unchecked type assertion. -/
inductive QueryOutcome
  | ok (text : String)
  | err (msg : String)
  | panicked
deriving DecidableEq, Repr

/-- The response-shape extraction of `chatGPTQuery`:
`result["choices"].([]interface{})`, `choices[0]`,
`.(map[string]interface{})["message"]`, `.(map[string]interface{})["content"].(string)`.
`some` iff every assertion succeeds; any `none` is a panic site. -/
def extractCompletion (body : Option Json) : Option String :=
  match body with
  | some b =>
    match jGet b "choices" with
    | some (Json.arr (first :: _)) =>
      match jGet first "message" with
      | some msg =>
        match jGet msg "content" with
        | some (Json.str s) => some s
        | _ => none
      | _ => none
    | _ => none
  | none => none

/-- `chatGPTQuery`: error when the API key is empty (unset), error on a
transport failure, then the unchecked shape extraction — which panics
(rather than returning an error) when the body does not have the expected
shape. -/
def chatGPTQuery (apiKey : String) (transport : Transport) : QueryOutcome :=
  if apiKey = "" then QueryOutcome.err "API key not found"
  else
    match transport with
    | Transport.transportError msg => QueryOutcome.err msg
    | Transport.response body =>
      match extractCompletion body with
      | some s => QueryOutcome.ok s
      | none => QueryOutcome.panicked

end VB

/-! Sample data used by the concrete theorems below. -/

/-- A sample course priced 50, created at instant 100. -/
def sampleExpensive : Course :=
  ⟨"datos", "Curso caro", "intro a datos", 50, 100⟩

/-- A sample course priced 10, created at instant 200 (newer and cheaper
than `sampleExpensive`). -/
def sampleCheap : Course :=
  ⟨"datos", "Curso breve", "intro ligera", 10, 200⟩

/-- A sample course unrelated to any programming vocabulary. -/
def sampleUnrelated : Course :=
  ⟨"cocina", "Pastelería", "tartas y masas", 5, 10⟩

/-- The `intents` map of `analyzeIntent` in an iteration order that
visits `"caro"` first — as legitimate a Go map iteration order as the
source order. -/
def intentEntriesCaroFirst : List (String × String) :=
  [("caro", "precio descendente"),
   ("barato", "precio ascendente"),
   ("nuevo", "fecha descendente"),
   ("reciente", "fecha descendente"),
   ("antiguo", "fecha ascendente")]

/-- A well-formed OpenAI chat-completion response body. -/
def gptBody : Json :=
  Json.obj [("choices",
    Json.arr [Json.obj [("message",
      Json.obj [("content", Json.str "Cursos de programación")])]])]

/-- A catalog document that decodes fine but whose `category` field is a
number, not a string. -/
def badCourseDoc : Json :=
  Json.obj [("category", Json.num 5),
            ("title", Json.str "Curso de Python"),
            ("description", Json.str "Aprende Python")]

/-- A catalog document with all three fields present as strings. -/
def goodCourseDoc : Json :=
  Json.obj [("category", Json.str "Programación"),
            ("title", Json.str "Curso de Python"),
            ("description", Json.str "Aprende Python fácil")]

/-- A sample sequence of index insertions: two categories (the second a
case-variant duplicate) and a keyword scan. -/
def sampleOps : List VA.IndexOp :=
  [VA.IndexOp.addCategory "Python",
   VA.IndexOp.addKeywords "Curso de Python avanzado",
   VA.IndexOp.addCategory "python"]

/-- The invariant of the synonym index: every entry is already
lower-case, and no entry repeats. -/
def IndexInv (st : List String) : Prop :=
  (∀ e ∈ st, lowerS e = e) ∧ st.Nodup

/-! Concrete counterexample and evaluation theorems. -/

/-- C1 counterexample: the question `"curso de programación barato"`
contains the cheap keyword `"barato"`, yet `handleCourseRequest` routes
it to the category branch (here the empty-category message), not to the
price-ascending query — the category check precedes the price check, so
the priority order cheap > category is not absolute. -/
theorem c1_cheap_priority_counterexample :
    substrB "barato" (lowerS "curso de programación barato") = true ∧
    VB.handleCourseRequest [sampleExpensive, sampleCheap]
        "curso de programación barato" =
      HttpResponse.jsonMessage "No se encontraron cursos en esta categoría." ∧
    HttpResponse.jsonMessage "No se encontraron cursos en esta categoría." ≠
      HttpResponse.jsonCourses
        (VB.getCoursesOrderedByPrice [sampleExpensive, sampleCheap]
          "curso de programación barato") := by
  decide

/-- C2 counterexample: `analyzeIntent` ranges over a Go map, whose
iteration order is unspecified; on the question `"barato o caro"` the
source-order iteration returns PriceAscending while an equally legitimate
iteration visiting `"caro"` first returns PriceDescending, so two runs on
the same input need not agree. -/
theorem c2_idempotence_counterexample :
    intentEntriesCaroFirst.Perm VA.intentEntries ∧
    VA.analyzeIntentWith VA.intentEntries "barato o caro" =
      "precio ascendente" ∧
    VA.analyzeIntentWith intentEntriesCaroFirst "barato o caro" =
      "precio descendente" := by
  decide

/-- C3 counterexample: the caching variant's price intents run an
unsorted query (`getCoursesPaginated` with the empty filter), so a
catalog stored as [price 50, price 10] is answered in that order, not
price-ascending; moreover the spec's scenario question
`"cheap python courses"` contains no Spanish intent keyword and
classifies as `"categoría"`, not PriceAscending. -/
theorem c3_price_query_counterexample :
    VA.analyzeIntent "cheap python courses" = "categoría" ∧
    VA.analyzeIntent "curso barato" = "precio ascendente" ∧
    VA.chatHandler VA.intentEntries ["python"] [sampleExpensive, sampleCheap]
        "curso barato" =
      HttpResponse.jsonCourses [sampleExpensive, sampleCheap] ∧
    sampleCheap.price < sampleExpensive.price ∧
    HttpResponse.jsonCourses [sampleExpensive, sampleCheap] ≠
      HttpResponse.jsonCourses [sampleCheap, sampleExpensive] := by
  decide

/-- C4 counterexample: the AI variant's date query sorts on the literal
field name `"createdat"`, which is not the `createdAt` field of the
Course schema, so the catalog comes back in store order — here the
question `"nuevo"` returns the older course first even though the claim
promises newest-first; and the caching variant classifies `"nuevo"` as a
date intent but then runs the synonym scan, not a date-sorted query. -/
theorem c4_date_query_counterexample :
    VB.getCoursesOrderedByDate [sampleExpensive, sampleCheap] "nuevo" =
      [sampleExpensive, sampleCheap] ∧
    sampleExpensive.createdAt < sampleCheap.createdAt ∧
    ([sampleExpensive, sampleCheap] : List Course) ≠
      [sampleCheap, sampleExpensive] ∧
    (VB.dateQuery "nuevo").field ≠ "createdAt" ∧
    VA.analyzeIntent "nuevo" = "fecha descendente" ∧
    VA.chatHandler VA.intentEntries [] [sampleExpensive, sampleCheap]
        "nuevo" = HttpResponse.jsonCourses [] := by
  decide

/-- C5 counterexample: the cache key is built from the lower-cased but
untrimmed question, so two questions differing only in surrounding
whitespace hit different cache entries, and the key differs from the
spec's trimmed normalization. -/
theorem c5_cache_key_counterexample :
    VA.cacheKey " Barato" ≠ VA.cacheKey "Barato" ∧
    VA.specCacheKey " Barato" = VA.specCacheKey "Barato" ∧
    VA.cacheKey " Barato" ≠ VA.specCacheKey " Barato" := by
  decide

/-- C8: `chatGPTQuery` returns the error outcome when the API key is
unset or the transport call fails and the first completion's text on a
well-formed body, but on a response body without the expected completion
shape (or an unparseable body) it reaches the unchecked type assertion
`result["choices"].([]interface{})` and panics — a third termination mode
the contract excludes. -/
theorem c8_chatgpt_outcomes :
    VB.chatGPTQuery "" (VB.Transport.response (some gptBody)) =
      VB.QueryOutcome.err "API key not found" ∧
    VB.chatGPTQuery "sk-test" (VB.Transport.transportError "connection reset") =
      VB.QueryOutcome.err "connection reset" ∧
    VB.chatGPTQuery "sk-test" (VB.Transport.response (some gptBody)) =
      VB.QueryOutcome.ok "Cursos de programación" ∧
    VB.chatGPTQuery "sk-test" (VB.Transport.response (some (Json.obj []))) =
      VB.QueryOutcome.panicked ∧
    VB.chatGPTQuery "sk-test" (VB.Transport.response none) =
      VB.QueryOutcome.panicked ∧
    ∀ msg, VB.QueryOutcome.panicked ≠ VB.QueryOutcome.err msg := by
  refine ⟨rfl, rfl, rfl, rfl, rfl, ?_⟩
  intro msg h
  cases h

/-- C9 counterexample: in the caching variant, a question matching the
synonym `"python"` against a catalog with no matching course produces an
empty-sequence query result without error, but the facade encodes that
empty course list directly — it does not emit the
no-courses-in-category message. -/
theorem c9_empty_category_counterexample :
    VA.getCoursesPaginated [sampleUnrelated] (VA.CatFilter.orContains "python")
        1 10 = [] ∧
    VA.chatHandler VA.intentEntries ["python"] [sampleUnrelated]
        "curso de python" = HttpResponse.jsonCourses [] ∧
    HttpResponse.jsonCourses [] ≠
      HttpResponse.jsonMessage "No se encontraron cursos en esta categoría." := by
  decide

/-- C10: the startup index builder skips a record whose `Decode` fails
(lenient path), but a record that decodes to a document whose `category`
field is not a string reaches the unchecked type assertion
`course["category"].(string)` and panics, a crash branch distinct from
every normal outcome; a fully well-typed record is processed normally. -/
theorem c10_loader_crash :
    VA.loadCoursesAndSynonyms [] [VA.RawRecord.decodeError] =
      VA.LoadOutcome.ok [] ∧
    VA.loadCoursesAndSynonyms [] [VA.RawRecord.decoded badCourseDoc] =
      VA.LoadOutcome.panicked ∧
    VA.loadCoursesAndSynonyms [] [VA.RawRecord.decoded goodCourseDoc] =
      VA.LoadOutcome.ok ["programación", "curso", "python"] ∧
    ∀ syns, VA.LoadOutcome.panicked ≠ VA.LoadOutcome.ok syns := by
  refine ⟨rfl, rfl, ?_, ?_⟩
  · decide
  · intro syns h
    cases h

/-! General helper lemmas. -/

/-- `Char.ofNat` of a valid scalar value decodes back to that value. -/
theorem toNat_ofNat_valid (n : Nat) (h : n.isValidChar) :
    (Char.ofNat n).toNat = n := by
  rw [Char.ofNat, dif_pos h]
  rfl

/-- ASCII case folding is idempotent on characters. -/
theorem goLower_goLower (c : Char) : goLower (goLower c) = goLower c := by
  unfold goLower
  by_cases h : c.toNat ≥ 65 ∧ c.toNat ≤ 90
  · rw [if_pos h]
    have hv : (Char.ofNat (c.toNat + 32)).toNat = c.toNat + 32 :=
      toNat_ofNat_valid _ (Or.inl (by omega))
    rw [if_neg (by omega)]
  · rw [if_neg h, if_neg h]

/-- ASCII case folding is idempotent on strings. -/
theorem lowerS_lowerS (s : String) : lowerS (lowerS s) = lowerS s := by
  have h : goLower ∘ goLower = goLower := funext goLower_goLower
  simp [lowerS, List.map_map, h]

/-- Reflexivity of the list-extension order. -/
theorem prefixRefl (l : List String) : l <+: l :=
  ⟨[], List.append_nil l⟩

/-- A list extends to itself plus a tail. -/
theorem prefixStep (l t : List String) : l <+: l ++ t :=
  ⟨t, rfl⟩

/-- Transitivity of the list-extension order. -/
theorem prefixTrans {l1 l2 l3 : List String} (h1 : l1 <+: l2) (h2 : l2 <+: l3) :
    l1 <+: l3 := by
  obtain ⟨t1, rfl⟩ := h1
  obtain ⟨t2, rfl⟩ := h2
  exact ⟨t1 ++ t2, (List.append_assoc _ _ _).symm⟩

/-- The empty index satisfies the invariant. -/
theorem indexInv_nil : IndexInv [] :=
  ⟨fun e he => absurd he (List.not_mem_nil e), List.nodup_nil⟩

/-- `addIfUnique` on an entry whose lower-casing is present: no-op. -/
theorem addIfUnique_mem {st : List String} {s : String} (hm : lowerS s ∈ st) :
    VA.addIfUnique st s = st := by
  simp [VA.addIfUnique, hm]

/-- `addIfUnique` on an absent entry: append its lower-casing. -/
theorem addIfUnique_not_mem {st : List String} {s : String} (hm : lowerS s ∉ st) :
    VA.addIfUnique st s = st ++ [lowerS s] := by
  simp [VA.addIfUnique, hm]

/-- `addIfUnique` preserves the index invariant. -/
theorem addIfUnique_inv {st : List String} (h : IndexInv st) (s : String) :
    IndexInv (VA.addIfUnique st s) := by
  by_cases hm : lowerS s ∈ st
  · rw [addIfUnique_mem hm]
    exact h
  · rw [addIfUnique_not_mem hm]
    refine ⟨?_, ?_⟩
    · intro e he
      rcases List.mem_append.1 he with he | he
      · exact h.1 e he
      · rw [List.mem_singleton] at he
        subst he
        exact lowerS_lowerS s
    · refine List.nodup_append.2 ⟨h.2, List.nodup_singleton _, ?_⟩
      intro a ha hb
      rw [List.mem_singleton] at hb
      subst hb
      exact hm ha

/-- `addIfUnique` only ever extends the index. -/
theorem addIfUnique_extends (st : List String) (s : String) :
    st <+: VA.addIfUnique st s := by
  by_cases hm : lowerS s ∈ st
  · rw [addIfUnique_mem hm]
  · rw [addIfUnique_not_mem hm]
    exact prefixStep st [lowerS s]

/-- A left fold of invariant-preserving steps preserves the invariant. -/
theorem foldl_preserve {α : Type} {P : List String → Prop}
    {f : List String → α → List String}
    (hf : ∀ st a, P st → P (f st a)) :
    ∀ (l : List α) (st : List String), P st → P (l.foldl f st)
  | [], _, h => h
  | a :: l, st, h => foldl_preserve hf l (f st a) (hf st a h)

/-- A left fold of extension steps only extends the list. -/
theorem foldl_extends {α : Type} {f : List String → α → List String}
    (hf : ∀ st a, st <+: f st a) :
    ∀ (l : List α) (st : List String), st <+: l.foldl f st
  | [], st => prefixRefl st
  | a :: l, st => prefixTrans (hf st a) (foldl_extends hf l (f st a))

/-- `extractAndAddKeywords` preserves the index invariant. -/
theorem extractAndAddKeywords_inv {st : List String} (h : IndexInv st)
    (text : String) : IndexInv (VA.extractAndAddKeywords st text) := by
  unfold VA.extractAndAddKeywords
  refine foldl_preserve (fun st word hw => ?_) _ _ h
  refine foldl_preserve (fun st2 keyword h2 => ?_) _ _ hw
  split
  · exact addIfUnique_inv h2 word
  · exact h2

/-- `extractAndAddKeywords` only ever extends the index. -/
theorem extractAndAddKeywords_extends (st : List String) (text : String) :
    st <+: VA.extractAndAddKeywords st text := by
  unfold VA.extractAndAddKeywords
  refine foldl_extends (fun st word => ?_) _ _
  refine foldl_extends (fun st2 keyword => ?_) _ _
  split
  · exact addIfUnique_extends st2 word
  · exact prefixRefl _

/-- Every insertion preserves the index invariant. -/
theorem applyOp_inv {st : List String} (h : IndexInv st) (op : VA.IndexOp) :
    IndexInv (VA.applyOp st op) := by
  cases op
  · exact addIfUnique_inv h _
  · exact extractAndAddKeywords_inv h _

/-- Every insertion only extends the index. -/
theorem applyOp_extends (st : List String) (op : VA.IndexOp) :
    st <+: VA.applyOp st op := by
  cases op
  · exact addIfUnique_extends st _
  · exact extractAndAddKeywords_extends st _

/-- The index built from scratch by any insertion sequence satisfies the
invariant. -/
theorem runOps_inv (ops : List VA.IndexOp) : IndexInv (VA.runOps [] ops) := by
  unfold VA.runOps
  exact @foldl_preserve VA.IndexOp IndexInv VA.applyOp
    (fun st op h => applyOp_inv h op) ops [] indexInv_nil

/-- `analyzeIntent` under any iteration order returns the intent of a
matching entry when all matching entries agree on their intent. -/
theorem analyzeIntent_first_match :
    ∀ (order : List (String × String)) (q : String) (e₀ : String × String),
      e₀ ∈ order → substrB e₀.1 (lowerS q) = true →
      (∀ e ∈ order, substrB e.1 (lowerS q) = true → e.2 = e₀.2) →
      VA.analyzeIntentWith order q = e₀.2 := by
  intro order
  induction order with
  | nil => intro q e₀ he; exact absurd he (List.not_mem_nil e₀)
  | cons hd tl ih =>
    intro q e₀ he hm hu
    obtain ⟨k, i⟩ := hd
    by_cases hki : substrB k (lowerS q) = true
    · simp only [VA.analyzeIntentWith, hki, if_true]
      exact hu (k, i) (List.mem_cons_self _ _) hki
    · simp only [VA.analyzeIntentWith, hki, if_false]
      rcases List.mem_cons.1 he with rfl | htl
      · exact absurd hm hki
      · exact ih q e₀ htl hm (fun e he' hm' => hu e (List.mem_cons_of_mem _ he') hm')

/-- `analyzeIntent` under any iteration order defaults to `"categoría"`
when no entry matches. -/
theorem analyzeIntent_no_match :
    ∀ (order : List (String × String)) (q : String),
      (∀ e ∈ order, substrB e.1 (lowerS q) = false) →
      VA.analyzeIntentWith order q = "categoría" := by
  intro order
  induction order with
  | nil => intro q _; rfl
  | cons hd tl ih =>
    intro q h
    obtain ⟨k, i⟩ := hd
    have hk := h (k, i) (List.mem_cons_self _ _)
    simp only [VA.analyzeIntentWith, hk, if_false]
    exact ih q (fun e he => h e (List.mem_cons_of_mem _ he))

/-- The Mongo value order is total. -/
theorem valLE_total : ∀ a b : Option Int, VB.valLE a b = true ∨ VB.valLE b a = true := by
  intro a b
  cases a <;> cases b <;> simp [VB.valLE] <;> omega

/-- The Mongo value order is transitive. -/
theorem valLE_trans : ∀ a b c : Option Int,
    VB.valLE a b = true → VB.valLE b c = true → VB.valLE a c = true := by
  intro a b c
  cases a <;> cases b <;> cases c <;> simp [VB.valLE] <;> omega

/-- The comparison induced by a sort stage is total. -/
theorem sortLEb_total (Q : VB.SortQuery) :
    ∀ a b : Course, VB.sortLEb Q a b = true ∨ VB.sortLEb Q b a = true := by
  intro a b
  unfold VB.sortLEb
  split
  · exact valLE_total _ _
  · exact valLE_total _ _

/-- The comparison induced by a sort stage is transitive. -/
theorem sortLEb_trans (Q : VB.SortQuery) :
    ∀ a b c : Course, VB.sortLEb Q a b = true → VB.sortLEb Q b c = true →
      VB.sortLEb Q a c = true := by
  intro a b c
  unfold VB.sortLEb
  split
  · exact fun h1 h2 => valLE_trans _ _ _ h1 h2
  · exact fun h1 h2 => valLE_trans _ _ _ h2 h1

/-- A sort stage returns a permutation of the catalog. -/
theorem runSortQuery_perm (catalog : List Course) (Q : VB.SortQuery) :
    (VB.runSortQuery catalog Q).Perm catalog := by
  unfold VB.runSortQuery
  exact List.perm_insertionSort _ _

/-- A sort stage returns a list sorted by its comparison. -/
theorem runSortQuery_sorted (catalog : List Course) (Q : VB.SortQuery) :
    List.Sorted (fun a b => VB.sortLEb Q a b = true) (VB.runSortQuery catalog Q) := by
  unfold VB.runSortQuery
  exact @List.sorted_insertionSort Course _ _ ⟨sortLEb_total Q⟩
    ⟨fun a b c => sortLEb_trans Q a b c⟩ catalog

/-- Inserting below a relation that holds everywhere puts the element in
front. -/
theorem orderedInsert_all (r : Course → Course → Prop) [DecidableRel r]
    (x : Course) (l : List Course) (h : ∀ b, r x b) :
    List.orderedInsert r x l = x :: l := by
  cases l with
  | nil => rfl
  | cons y t => simp [List.orderedInsert, h y]

/-- A stable sort under a relation that holds everywhere is the
identity. -/
theorem insertionSort_all (r : Course → Course → Prop) [DecidableRel r]
    (h : ∀ a b, r a b) : ∀ l : List Course, List.insertionSort r l = l := by
  intro l
  induction l with
  | nil => rfl
  | cons x t ih =>
    simp only [List.insertionSort, ih]
    exact orderedInsert_all r x t (fun b => h x b)

/-- The date query sorts on the field name `"createdat"`, which no Course
document carries, so under the stable-sort model it returns the catalog
unchanged. -/
theorem dateSort_id (catalog : List Course) (q : String) :
    VB.getCoursesOrderedByDate catalog q = catalog := by
  unfold VB.getCoursesOrderedByDate VB.runSortQuery
  apply insertionSort_all
  intro a b
  have hf : ∀ c : Course, VB.fieldValue c "createdat" = none := fun c => rfl
  unfold VB.sortLEb VB.dateQuery
  split <;> simp [hf, VB.valLE]

/-- When the question contains `"barato"`, the price query's result is
sorted by ascending price. -/
theorem priceSort_sorted (catalog : List Course) (q : String)
    (hb : substrB "barato" q = true) :
    List.Sorted (fun a b : Course => a.price ≤ b.price)
      (VB.getCoursesOrderedByPrice catalog q) := by
  have h := runSortQuery_sorted catalog (VB.priceQuery q)
  refine h.imp ?_
  intro a b hab
  simp [VB.sortLEb, VB.priceQuery, VB.fieldValue, hb, VB.valLE] at hab
  exact hab

/-- When the question does not contain `"barato"`, the price query's
result is sorted by descending price. -/
theorem priceSort_sorted_desc (catalog : List Course) (q : String)
    (hb : substrB "barato" q = false) :
    List.Sorted (fun a b : Course => b.price ≤ a.price)
      (VB.getCoursesOrderedByPrice catalog q) := by
  have h := runSortQuery_sorted catalog (VB.priceQuery q)
  refine h.imp ?_
  intro a b hab
  simp [VB.sortLEb, VB.priceQuery, VB.fieldValue, hb, VB.valLE] at hab
  exact hab

/-! Claim theorems (amended / confirmed statements) and witnesses. -/

/-- C1 (amended): inside `analyzeIntent`, a question containing the cheap
keyword `"barato"` and none of the other four intent keywords classifies
as PriceAscending under every map iteration order — category keywords
cannot override it there, since category is only the default; but the
priority is not absolute system-wide: `handleCourseRequest` checks
category keywords before price keywords (see the counterexample), and
when an expensive/date keyword is also present the result of
`analyzeIntent` depends on the map iteration order. -/
theorem c1_cheap_priority_amended :
    ∀ (order : List (String × String)) (q : String),
      order.Perm VA.intentEntries →
      substrB "barato" (lowerS q) = true →
      substrB "caro" (lowerS q) = false →
      substrB "nuevo" (lowerS q) = false →
      substrB "reciente" (lowerS q) = false →
      substrB "antiguo" (lowerS q) = false →
      VA.analyzeIntentWith order q = "precio ascendente" := by
  intro order q hperm hb hc hn hr ha
  refine analyzeIntent_first_match order q ("barato", "precio ascendente")
    (hperm.mem_iff.2 (by decide)) hb ?_
  intro e he hme
  have he' : e ∈ VA.intentEntries := hperm.mem_iff.1 he
  simp only [VA.intentEntries, List.mem_cons, List.not_mem_nil, or_false] at he'
  rcases he' with rfl | rfl | rfl | rfl | rfl
  · rfl
  · rw [hc] at hme; cases hme
  · rw [hn] at hme; cases hme
  · rw [hr] at hme; cases hme
  · rw [ha] at hme; cases hme

/-- C1 witness: a concrete cheap question with no other intent keyword
classifies as PriceAscending under the source iteration order. -/
theorem c1_cheap_priority_amended_witness :
    VA.analyzeIntentWith VA.intentEntries "cursos baratos de python" =
      "precio ascendente" :=
  c1_cheap_priority_amended VA.intentEntries "cursos baratos de python"
    (List.Perm.refl _) (by decide) (by decide) (by decide) (by decide) (by decide)

/-- C2 (amended): the Intent is a function of the question together with
the map iteration order; two runs (any two iteration orders that are
permutations of the entry list) agree whenever every pair of entries
matching the question carries the same intent — in particular whenever
the question matches at most one entry. When keywords of two different
intents are both present, the runs can disagree (see the
counterexample). -/
theorem c2_idempotence_amended :
    ∀ (o1 o2 : List (String × String)) (q : String),
      o1.Perm VA.intentEntries → o2.Perm VA.intentEntries →
      (∀ e1 ∈ VA.intentEntries, ∀ e2 ∈ VA.intentEntries,
        substrB e1.1 (lowerS q) = true → substrB e2.1 (lowerS q) = true →
        e1.2 = e2.2) →
      VA.analyzeIntentWith o1 q = VA.analyzeIntentWith o2 q := by
  intro o1 o2 q h1 h2 hagree
  by_cases hex : ∃ e ∈ VA.intentEntries, substrB e.1 (lowerS q) = true
  · obtain ⟨e₀, he₀, hm⟩ := hex
    have r1 := analyzeIntent_first_match o1 q e₀ (h1.mem_iff.2 he₀) hm
      (fun e he hme => hagree e (h1.mem_iff.1 he) e₀ he₀ hme hm)
    have r2 := analyzeIntent_first_match o2 q e₀ (h2.mem_iff.2 he₀) hm
      (fun e he hme => hagree e (h2.mem_iff.1 he) e₀ he₀ hme hm)
    rw [r1, r2]
  · push_neg at hex
    have r1 := analyzeIntent_no_match o1 q
      (fun e he => Bool.eq_false_iff.2 (hex e (h1.mem_iff.1 he)))
    have r2 := analyzeIntent_no_match o2 q
      (fun e he => Bool.eq_false_iff.2 (hex e (h2.mem_iff.1 he)))
    rw [r1, r2]

/-- C2 witness: on a question matching only the two date-descending
entries, the source order and the caro-first order agree. -/
theorem c2_idempotence_amended_witness :
    VA.analyzeIntentWith intentEntriesCaroFirst "cursos nuevos y recientes" =
      VA.analyzeIntentWith VA.intentEntries "cursos nuevos y recientes" :=
  c2_idempotence_amended intentEntriesCaroFirst VA.intentEntries
    "cursos nuevos y recientes" (by decide) (List.Perm.refl _) (by decide)

/-- C3 (amended): it is the AI variant, not the caching variant, that
sorts by price: whenever the question has no category keyword and
contains a price keyword, `handleCourseRequest` answers with
`getCoursesOrderedByPrice`, which returns a permutation of the whole
catalog (no pagination) sorted by price — the direction is ascending
exactly when the question contains `"barato"`, and descending otherwise;
the caching variant's price intents instead run an unsorted
page-1/size-10 query, and the English question `"cheap python courses"`
never classifies as a price intent (see the counterexample). -/
theorem c3_price_query_amended :
    ∀ (catalog : List Course) (question : String),
      VB.containsKeywords question ["programación", "frontend", "backend"] = false →
      VB.containsKeywords question ["barato", "caro", "precio"] = true →
      VB.handleCourseRequest catalog question =
        HttpResponse.jsonCourses (VB.getCoursesOrderedByPrice catalog question) ∧
      (VB.getCoursesOrderedByPrice catalog question).Perm catalog ∧
      ((VB.priceQuery question).ascending = true ↔
        substrB "barato" question = true) ∧
      (substrB "barato" question = true →
        List.Sorted (fun a b : Course => a.price ≤ b.price)
          (VB.getCoursesOrderedByPrice catalog question)) ∧
      (substrB "barato" question = false →
        List.Sorted (fun a b : Course => b.price ≤ a.price)
          (VB.getCoursesOrderedByPrice catalog question)) := by
  intro catalog question hnc hp
  refine ⟨?_, runSortQuery_perm _ _, Iff.rfl,
    fun hb => priceSort_sorted _ _ hb, fun hb => priceSort_sorted_desc _ _ hb⟩
  simp [VB.handleCourseRequest, hnc, hp]

/-- C3 witness: the spec's scenario in the vocabulary the code actually
matches — a catalog holding prices 50 and 10 in store order is answered
as [10, 50] for a Spanish cheap question, and as [50, 10] for an
expensive question over the catalog stored as [10, 50]. -/
theorem c3_price_query_amended_witness :
    VB.handleCourseRequest [sampleExpensive, sampleCheap]
        "cursos de python baratos" =
      HttpResponse.jsonCourses [sampleCheap, sampleExpensive] ∧
    VB.handleCourseRequest [sampleCheap, sampleExpensive]
        "cursos de python caros" =
      HttpResponse.jsonCourses [sampleExpensive, sampleCheap] :=
  ⟨(c3_price_query_amended [sampleExpensive, sampleCheap]
      "cursos de python baratos" (by decide) (by decide)).1.trans (by decide),
   (c3_price_query_amended [sampleCheap, sampleExpensive]
      "cursos de python caros" (by decide) (by decide)).1.trans (by decide)⟩

/-- C4 (amended): the AI variant's date query sorts on the literal field
name `"createdat"`, not the schema's `createdAt`, with the descending
direction exactly when the question contains `"nuevo"` or `"reciente"`;
since no Course document carries a `"createdat"` field, the issued sort
leaves the catalog in store order under the stable-sort model — so
neither newest-first nor oldest-first ordering is delivered (and the
caching variant routes date intents to the synonym scan, see the
counterexample). -/
theorem c4_date_query_amended :
    ∀ (catalog : List Course) (question : String),
      (VB.dateQuery question).field = "createdat" ∧
      ((VB.dateQuery question).ascending = false ↔
        (substrB "nuevo" question || substrB "reciente" question) = true) ∧
      VB.getCoursesOrderedByDate catalog question = catalog := by
  intro catalog question
  refine ⟨rfl, ?_, dateSort_id catalog question⟩
  cases h : (substrB "nuevo" question || substrB "reciente" question) <;>
    simp [VB.dateQuery, h]

/-- C5 (amended): the cache key is the fixed `"query:"` prefix applied to
the lower-cased — but not trimmed — question, so questions equal up to
letter case share one cache entry while questions differing in
surrounding whitespace do not (see the counterexample). -/
theorem c5_cache_key_amended :
    ∀ q1 q2 : String, lowerS q1 = lowerS q2 → VA.cacheKey q1 = VA.cacheKey q2 := by
  intro q1 q2 h
  unfold VA.cacheKey
  rw [h]

/-- C5 witness: two case-variants of one question share a cache key. -/
theorem c5_cache_key_amended_witness :
    VA.cacheKey "CURSO Barato" = VA.cacheKey "curso barato" :=
  c5_cache_key_amended "CURSO Barato" "curso barato" (by decide)

/-- C6: storing a payload under a key and reading it back before the
10-minute TTL has elapsed is a hit with the identical payload, reading it
at or after expiry is a miss, and a second store under the same key
replaces the first entry entirely. -/
theorem c6_cache_roundtrip :
    ∀ (st : VA.CacheState) (k : String) (v : Json) (now t : Nat),
      (t < now + VA.ttlSeconds →
        VA.getCachedResponse (VA.cacheResponse st k v now) k t = some v) ∧
      (now + VA.ttlSeconds ≤ t →
        VA.getCachedResponse (VA.cacheResponse st k v now) k t = none) ∧
      (∀ (v0 : Json) (n0 : Nat),
        VA.cacheResponse (VA.cacheResponse st k v0 n0) k v now =
          VA.cacheResponse st k v now) := by
  intro st k v now t
  refine ⟨?_, ?_, ?_⟩
  · intro h
    simp [VA.getCachedResponse, VA.cacheGet, VA.cacheResponse, VA.cacheSet,
      List.find?, h]
  · intro h
    simp [VA.getCachedResponse, VA.cacheGet, VA.cacheResponse, VA.cacheSet,
      List.find?]
    omega
  · intro v0 n0
    simp [VA.cacheResponse, VA.cacheSet, List.filter_filter]

/-- C6 witness: a concrete round trip — a hit one second before expiry
and a miss at expiry. -/
theorem c6_cache_roundtrip_witness :
    VA.getCachedResponse
        (VA.cacheResponse ⟨[]⟩ "query:cursos baratos" (Json.str "respuesta") 0)
        "query:cursos baratos" 599 = some (Json.str "respuesta") ∧
    VA.getCachedResponse
        (VA.cacheResponse ⟨[]⟩ "query:cursos baratos" (Json.str "respuesta") 0)
        "query:cursos baratos" 600 = none :=
  ⟨(c6_cache_roundtrip ⟨[]⟩ "query:cursos baratos" (Json.str "respuesta") 0 599).1
      (by decide),
   (c6_cache_roundtrip ⟨[]⟩ "query:cursos baratos" (Json.str "respuesta") 0 600).2.1
      (by decide)⟩

/-- C7: after any sequence of category and keyword insertions starting
from the empty index, every entry is lower-case, no two entries are equal
under case-insensitive comparison, every further insertion only extends
the list (first-seen order is preserved), and re-inserting a present
entry leaves the index unchanged. -/
theorem c7_index_invariant (ops : List VA.IndexOp) :
    (∀ e ∈ VA.runOps [] ops, lowerS e = e) ∧
    (VA.runOps [] ops).Pairwise (fun a b => lowerS a ≠ lowerS b) ∧
    (∀ op, VA.runOps [] ops <+: VA.applyOp (VA.runOps [] ops) op) ∧
    (∀ e ∈ VA.runOps [] ops, VA.addIfUnique (VA.runOps [] ops) e = VA.runOps [] ops) := by
  have hinv := runOps_inv ops
  refine ⟨hinv.1, ?_, fun op => applyOp_extends _ op, ?_⟩
  · refine List.Pairwise.imp_of_mem (fun ha hb hne => ?_) hinv.2
    rw [hinv.1 _ ha, hinv.1 _ hb]
    exact hne
  · intro e he
    have hl : lowerS e ∈ VA.runOps [] ops := by
      rw [hinv.1 e he]
      exact he
    rw [addIfUnique_mem hl]

/-- C7 witness: the invariant instantiated at a concrete insertion
sequence containing a case-variant duplicate. -/
theorem c7_index_invariant_witness :
    VA.runOps [] sampleOps <+:
      VA.applyOp (VA.runOps [] sampleOps)
        (VA.IndexOp.addKeywords "taller de javascript") ∧
    VA.addIfUnique (VA.runOps [] sampleOps) "python" = VA.runOps [] sampleOps :=
  ⟨(c7_index_invariant sampleOps).2.2.1 (VA.IndexOp.addKeywords "taller de javascript"),
   (c7_index_invariant sampleOps).2.2.2 "python" (by decide)⟩

/-- C9 (amended): in the AI variant, a category-keyword question whose
category query matches zero courses is answered 200 with the
no-courses-in-category message object, not with the empty array; the
caching variant instead encodes the empty course list (see the
counterexample). -/
theorem c9_empty_category_amended :
    ∀ (catalog : List Course) (question : String),
      VB.containsKeywords question ["programación", "frontend", "backend"] = true →
      VB.getCoursesByCategory catalog question = [] →
      VB.handleCourseRequest catalog question =
        HttpResponse.jsonMessage "No se encontraron cursos en esta categoría." := by
  intro catalog question hcat hempty
  simp [VB.handleCourseRequest, hcat, hempty]

/-- C9 witness: a frontend question over a catalog with one unrelated
course yields the message response. -/
theorem c9_empty_category_amended_witness :
    VB.handleCourseRequest [sampleUnrelated] "cursos de frontend" =
      HttpResponse.jsonMessage "No se encontraron cursos en esta categoría." :=
  c9_empty_category_amended [sampleUnrelated] "cursos de frontend"
    (by decide) (by decide)
